import Mathlib

/-!
Verification of the traffic-analysis script `network.py`.

The script decodes a packet capture into a pandas dataframe
(`extract_packet_data`), aggregates bandwidth, protocol and IP-pair
statistics (`analyze_packet_data`), and flags potential port scanners
(`extract_packet_data_security` / `detect_port_scanning`).

The embedding below models each dataframe as a `List` of rows and each
pandas operation as a list transformation:
* `groupby(keys).size()` is `groupCounts` (distinct keys paired with their
  multiplicities) followed by a lexicographic key sort (`groupby` sorts its
  group keys by default);
* `Series.sort_values(ascending=False)` is `sort_values_desc`: pandas
  computes an ascending argsort of the values and reverses the resulting
  indexer, so on the inputs considered here (where the underlying numpy
  sort is in its stable insertion-sort regime) it behaves as a stable
  ascending sort followed by a reversal;
* `value_counts` is `groupCounts` over first-appearance order followed by
  the same descending value sort;
* a dataframe expression that raises a `KeyError` (selecting a column of
  the empty, column-less dataframe produced by `pd.DataFrame([])`) is an
  `Except.error`.

Percentages are computed in `ℚ`, the exact-arithmetic idealization of the
script's floating-point division.
-/

namespace NetTraffic

/-- One decoded packet as the script reads it from scapy: whether it has an
IP layer, the IP source/destination, the IP protocol number, the frame
length `len(packet)`, whether it has a TCP layer, and the TCP destination
port. -/
structure Packet where
  hasIP : Bool
  src : String
  dst : String
  proto : Nat
  size : Int
  hasTCP : Bool
  dport : Nat
deriving DecidableEq

/-- One row of the dataframe built by `extract_packet_data`
(src_ip, dst_ip, protocol, size). -/
structure Row where
  src_ip : String
  dst_ip : String
  protocol : Nat
  size : Int
deriving DecidableEq

/-- One row of the dataframe built by `extract_packet_data_security`
(src_ip, dst_ip, protocol, size, dst_port). -/
structure SecRow where
  src_ip : String
  dst_ip : String
  protocol : Nat
  size : Int
  dst_port : Nat
deriving DecidableEq

/-- Row of `protocol_counts_df` (columns Protocol, Count, Percentage). -/
structure ProtocolDistributionEntry where
  protocol : String
  count : Nat
  percentage : ℚ
deriving DecidableEq

/-- Row of `ip_communication_table` (Source IP, Destination IP, Count,
Percentage). -/
structure IPPairEntry where
  src_ip : String
  dst_ip : String
  count : Nat
  percentage : ℚ
deriving DecidableEq

/-- Row of `ip_communication_protocols` (Source IP, Destination IP,
Protocol, Count, Percentage). -/
structure IPPairProtocolEntry where
  src_ip : String
  dst_ip : String
  protocol : String
  count : Nat
  percentage : ℚ
deriving DecidableEq

/-- The five values returned by `analyze_packet_data`. -/
structure AnalyzeResult where
  total_bandwidth : Int
  protocol_counts_df : List ProtocolDistributionEntry
  ip_communication_table : List IPPairEntry
  protocol_frequency : List (String × Nat)
  ip_communication_protocols : List IPPairProtocolEntry
deriving DecidableEq

/-- Embeds `extract_packet_data`: keep the packets with an IP layer and
project out (src_ip, dst_ip, protocol, size). -/
def extract_packet_data (packets : List Packet) : List Row :=
  (packets.filter (·.hasIP)).map fun p => ⟨p.src, p.dst, p.proto, p.size⟩

/-- Embeds `extract_packet_data_security`: like `extract_packet_data` but
also records the TCP destination port, with the sentinel 0 for packets
without a TCP layer. -/
def extract_packet_data_security (packets : List Packet) : List SecRow :=
  (packets.filter (·.hasIP)).map fun p =>
    ⟨p.src, p.dst, p.proto, p.size, if p.hasTCP then p.dport else 0⟩

/-- Embeds `protocol_name`: the fixed lookup 1/6/17 with an
`Unknown(<n>)` fallback. -/
def protocol_name (number : Nat) : String :=
  if number = 1 then "ICMP"
  else if number = 6 then "TCP"
  else if number = 17 then "UDP"
  else "Unknown(" ++ toString number ++ ")"

/-- Distinct values of a list in order of first appearance (the index of a
pandas groupby/value_counts before any sorting). -/
def uniqueKeys {α : Type} [DecidableEq α] : List α → List α
  | [] => []
  | a :: as => a :: (uniqueKeys as).filter (· ≠ a)

/-- Each distinct key of the list paired with the number of elements
carrying it: the multiset underlying `groupby(key).size()` /
`value_counts()`. -/
def groupCounts {α κ : Type} [DecidableEq κ] (key : α → κ) (l : List α) :
    List (κ × Nat) :=
  (uniqueKeys (l.map key)).map fun k => (k, l.countP fun x => key x = k)

/-- Insert an element into a list, before the first element it compares
`le` to; on a `le`-sorted list this is a stable sorted insertion. -/
def insertLe {α : Type} (le : α → α → Bool) (x : α) : List α → List α
  | [] => [x]
  | y :: ys => if le x y then x :: y :: ys else y :: insertLe le x ys

/-- Stable insertion sort with respect to the boolean comparison `le`. -/
def sortLe {α : Type} (le : α → α → Bool) : List α → List α
  | [] => []
  | a :: as => insertLe le a (sortLe le as)

/-- Strict comparison of characters by code point. -/
def charLtB (c d : Char) : Bool :=
  decide (c.val.toNat < d.val.toNat)

/-- Lexicographic strict comparison of character lists. -/
def charsLtB : List Char → List Char → Bool
  | [], [] => false
  | [], _ :: _ => true
  | _ :: _, [] => false
  | c :: cs, d :: ds => charLtB c d || (c = d && charsLtB cs ds)

/-- Lexicographic strict comparison of strings by code point, the order a
string-keyed `groupby` sorts its keys in. -/
def strLtB (a b : String) : Bool :=
  charsLtB a.data b.data

/-- Lexicographic comparison of (src_ip, dst_ip) group keys, the order in
which `groupby(["src_ip", "dst_ip"])` emits its groups. -/
def pairLe (a b : String × String) : Bool :=
  strLtB a.1 b.1 ||
    (decide (a.1 = b.1) && (strLtB a.2 b.2 || decide (a.2 = b.2)))

/-- Lexicographic comparison of (src_ip, dst_ip, protocol) group keys. -/
def tripleLe (a b : String × String × Nat) : Bool :=
  strLtB a.1 b.1 ||
    (decide (a.1 = b.1) &&
      (strLtB a.2.1 b.2.1 ||
        (decide (a.2.1 = b.2.1) && decide (a.2.2 ≤ b.2.2))))

/-- Lexicographic comparison of (src_ip, dst_port) group keys. -/
def spLe (a b : String × Nat) : Bool :=
  strLtB a.1 b.1 || (decide (a.1 = b.1) && decide (a.2 ≤ b.2))

/-- Comparison of keyed counts by their count value. -/
def countLe {κ : Type} (a b : κ × Nat) : Bool :=
  decide (a.2 ≤ b.2)

/-- Embeds `Series.sort_values(ascending=False)` on a series of counts:
pandas argsorts the values ascending and reverses the indexer, so ties end
up in reverse of their pre-sort order. -/
def sort_values_desc {κ : Type} (l : List (κ × Nat)) : List (κ × Nat) :=
  (sortLe countLe l).reverse

/-- The series `df.groupby(["src_ip", "dst_ip"]).size()`: counts per
distinct pair, keys in lexicographic order. -/
def pairCountsOf (df : List Row) : List ((String × String) × Nat) :=
  sortLe (fun a b => pairLe a.1 b.1)
    (groupCounts (fun r => (r.src_ip, r.dst_ip)) df)

/-- The series `ip_communication`: the pair counts sorted by count
descending. -/
def ip_communication (df : List Row) : List ((String × String) × Nat) :=
  sort_values_desc (pairCountsOf df)

/-- The scalar `ip_communication.sum()`. -/
def ipTotal (df : List Row) : Nat :=
  ((ip_communication df).map (·.2)).sum

/-- The series `df.groupby(["src_ip", "dst_ip", "protocol"]).size()`:
counts per distinct triple, keys in lexicographic order. -/
def tripleCountsOf (df : List Row) : List ((String × String × Nat) × Nat) :=
  sortLe (fun a b => tripleLe a.1 b.1)
    (groupCounts (fun r => (r.src_ip, r.dst_ip, r.protocol)) df)

/-- The per-group sum used by the `transform(lambda x: x / x.sum() * 100)`
on `ip_communication_protocols`: total count of the triples sharing the
(src_ip, dst_ip) pair (s, d). -/
def pairGroupTotal (df : List Row) (s d : String) : Nat :=
  (((tripleCountsOf df).filter fun uc => uc.1.1 = s ∧ uc.1.2.1 = d).map
    (·.2)).sum

/-- The series `df["protocol"].value_counts()`: counts per distinct
protocol number, sorted by count descending. -/
def protoCountsOf (df : List Row) : List (Nat × Nat) :=
  sort_values_desc (groupCounts (fun r => r.protocol) df)

/-- The body of `analyze_packet_data` on a non-empty dataframe: total
bandwidth, protocol distribution (count and `value_counts(normalize=True)
* 100` percentage), the pair table with percentages relative to
`ip_communication.sum()`, the protocol frequency series, and the per-pair
protocol breakdown with percentages relative to the per-pair subtotal. -/
def analyzeBody (df : List Row) : AnalyzeResult :=
  { total_bandwidth := (df.map (·.size)).sum
    protocol_counts_df := (protoCountsOf df).map fun pc =>
      ⟨protocol_name pc.1, pc.2, (pc.2 : ℚ) / (df.length : ℚ) * 100⟩
    ip_communication_table := (ip_communication df).map fun kc =>
      ⟨kc.1.1, kc.1.2, kc.2, (kc.2 : ℚ) / (ipTotal df : ℚ) * 100⟩
    protocol_frequency := (protoCountsOf df).map fun pc =>
      (protocol_name pc.1, pc.2)
    ip_communication_protocols := (tripleCountsOf df).map fun tc =>
      ⟨tc.1.1, tc.1.2.1, protocol_name tc.1.2.2, tc.2,
        (tc.2 : ℚ) / (pairGroupTotal df tc.1.1 tc.1.2.1 : ℚ) * 100⟩ }

/-- Embeds `analyze_packet_data`. On the dataframe produced from zero IP
records, `pd.DataFrame([])` has no columns at all, so the very first
expression `df["size"]` raises `KeyError: 'size'`; this is the
`Except.error` branch. -/
def analyze_packet_data (df : List Row) : Except String AnalyzeResult :=
  if df = [] then .error "KeyError: size" else .ok (analyzeBody df)

/-- The body of `detect_port_scanning` on a non-empty dataframe: group by
(src_ip, dst_port), count the groups per src_ip, keep the sources whose
distinct-port count reaches the threshold. The script logs these addresses
as a warning; the embedding returns them as the flagged list. -/
def detectBody (df : List SecRow) (port_scan_threshold : Nat) : List String :=
  let port_scan_df := sortLe (fun a b => spLe a.1 b.1)
    (groupCounts (fun r => (r.src_ip, r.dst_port)) df)
  let srcs := uniqueKeys (port_scan_df.map fun q => q.1.1)
  let unique_ports_per_ip := srcs.map fun s =>
    (s, port_scan_df.countP fun q => q.1.1 = s)
  let potential := unique_ports_per_ip.filter fun su => port_scan_threshold ≤ su.2
  potential.map fun su => su.1

/-- Embeds `detect_port_scanning`. On the dataframe produced from zero IP
records, `df.groupby(['src_ip', 'dst_port'])` raises `KeyError: 'src_ip'`
(the empty dataframe has no columns); this is the `Except.error` branch. -/
def detect_port_scanning (df : List SecRow) (port_scan_threshold : Nat) :
    Except String (List String) :=
  if df = [] then .error "KeyError: src_ip"
  else .ok (detectBody df port_scan_threshold)

/-- Number of distinct `dst_port` values recorded for the source `s`,
the sentinel 0 included when present. -/
def uniquePortCount (s : String) (df : List SecRow) : Nat :=
  (uniqueKeys ((df.filter fun r => r.src_ip = s).map (·.dst_port))).length

/-- Number of distinct non-sentinel `dst_port` values recorded for the
source `s`: the spec's `uniqueDestinationPortCount`, which does not count
the sentinel 0. -/
def uniqueNonSentinelPortCount (s : String) (df : List SecRow) : Nat :=
  (uniqueKeys ((df.filter fun r => r.src_ip = s ∧ r.dst_port ≠ 0).map
    (·.dst_port))).length


/-- Membership in `uniqueKeys` is membership in the underlying list. -/
lemma mem_uniqueKeys {α : Type} [DecidableEq α] {a : α} {l : List α} :
    a ∈ uniqueKeys l ↔ a ∈ l := by
  induction l with
  | nil => simp [uniqueKeys]
  | cons b bs ih =>
    by_cases hab : a = b
    · simp [uniqueKeys, hab]
    · simp [uniqueKeys, List.mem_filter, hab, ih]

/-- Partition identity: summing, over the distinct keys satisfying `q`, the
number of occurrences of each key, counts exactly the elements satisfying
`q`. -/
lemma sum_countP_uniqueKeys_filter {α : Type} [DecidableEq α]
    (l : List α) (q : α → Bool) :
    (((uniqueKeys l).filter q).map fun k => l.countP fun x => x = k).sum
      = l.countP q := by
  induction l generalizing q with
  | nil => simp [uniqueKeys]
  | cons a as ih =>
    have hmap :
        (((uniqueKeys as).filter fun x => q x && decide (x ≠ a)).map
            fun k => (a :: as).countP fun x => x = k)
          = (((uniqueKeys as).filter fun x => q x && decide (x ≠ a)).map
            fun k => as.countP fun x => x = k) := by
      apply List.map_congr_left
      intro k hk
      have hk2 : q k = true ∧ k ≠ a := by
        simpa using (List.mem_filter.mp hk).2
      rw [List.countP_cons_of_neg]
      simp
      exact fun h => hk2.2 h.symm
    have hsplit := List.countP_eq_countP_filter_add as q fun x => decide (x = a)
    rw [List.countP_filter, List.countP_filter] at hsplit
    have h2 : (as.countP fun x => q x && !decide (x = a))
        = as.countP fun x => q x && decide (x ≠ a) := by
      apply List.countP_congr; intro x _; simp [decide_not]
    rw [h2] at hsplit
    by_cases hqa : q a = true
    · have h1 : (as.countP fun x => q x && decide (x = a))
          = as.countP fun x => x = a := by
        apply List.countP_congr; intro x _
        constructor
        · intro hb
          have hb2 : q x = true ∧ x = a := by simpa using hb
          simp [hb2.2]
        · intro hb
          have hxa : x = a := by simpa using hb
          subst hxa; simp [hqa]
      simp only [uniqueKeys]
      rw [List.filter_cons_of_pos hqa]
      simp only [List.map_cons, List.sum_cons]
      rw [List.filter_filter, hmap, ih]
      rw [List.countP_cons_of_pos _ _ (by simp), List.countP_cons_of_pos _ _ hqa]
      rw [h1] at hsplit
      omega
    · have h1 : (as.countP fun x => q x && decide (x = a)) = 0 := by
        apply List.countP_eq_zero.mpr
        intro x _ hb
        have hb2 : q x = true ∧ x = a := by simpa using hb
        obtain ⟨hq1, hxa⟩ := hb2
        subst hxa; exact hqa hq1
      simp only [uniqueKeys]
      rw [List.filter_cons_of_neg hqa]
      rw [List.filter_filter, hmap, ih]
      rw [List.countP_cons_of_neg _ _ hqa]
      omega

/-- Taking distinct keys commutes with filtering. -/
lemma uniqueKeys_filter {α : Type} [DecidableEq α] (l : List α) (q : α → Bool) :
    uniqueKeys (l.filter q) = (uniqueKeys l).filter q := by
  induction l with
  | nil => simp [uniqueKeys]
  | cons a as ih =>
    by_cases hqa : q a = true
    · rw [List.filter_cons_of_pos hqa]
      simp only [uniqueKeys]
      rw [List.filter_cons_of_pos hqa, ih, List.filter_filter, List.filter_filter]
      have : ∀ x ∈ uniqueKeys as,
          (decide (x ≠ a) && q x) = (q x && decide (x ≠ a)) := by
        intro x _; exact Bool.and_comm _ _
      rw [List.filter_congr this]
    · rw [List.filter_cons_of_neg hqa]
      simp only [uniqueKeys]
      rw [List.filter_cons_of_neg hqa, ih, List.filter_filter]
      have : ∀ x ∈ uniqueKeys as,
          q x = (q x && decide (x ≠ a)) := by
        intro x _
        by_cases hx : x = a
        · subst hx; simp [hqa]
        · simp [hx]
      rw [← List.filter_congr this]

/-- Taking distinct keys commutes with mapping an injective function. -/
lemma uniqueKeys_map_inj {α β : Type} [DecidableEq α] [DecidableEq β]
    (f : α → β) (hf : ∀ x y, f x = f y → x = y) (l : List α) :
    uniqueKeys (l.map f) = (uniqueKeys l).map f := by
  induction l with
  | nil => simp [uniqueKeys]
  | cons a as ih =>
    simp only [List.map_cons, uniqueKeys, ih]
    congr 1
    rw [List.filter_map]
    have : ∀ x ∈ uniqueKeys as,
        ((fun y => decide (y ≠ f a)) ∘ f) x = decide (x ≠ a) := by
      intro x _
      simp only [Function.comp]
      by_cases hx : x = a
      · subst hx; simp
      · have hfx : ¬f x = f a := fun h => hx (hf x a h)
        simp [hx, hfx]
    rw [List.filter_congr this]

/-- Inserting with `insertLe` is a permutation of consing. -/
lemma insertLe_perm {α : Type} (le : α → α → Bool) (x : α) (l : List α) :
    (insertLe le x l).Perm (x :: l) := by
  induction l with
  | nil => exact List.Perm.refl _
  | cons y ys ih =>
    simp only [insertLe]
    split
    · exact List.Perm.refl _
    · exact (ih.cons y).trans (List.Perm.swap x y ys)

/-- `sortLe` permutes its input. -/
lemma sortLe_perm {α : Type} (le : α → α → Bool) (l : List α) :
    (sortLe le l).Perm l := by
  induction l with
  | nil => exact List.Perm.refl _
  | cons a as ih => exact (insertLe_perm le a (sortLe le as)).trans (ih.cons a)

/-- Inserting into a `le`-pairwise list with `insertLe` preserves
pairwiseness, given transitivity and totality of `le`. -/
lemma pairwise_insertLe {α : Type} {le : α → α → Bool}
    (htrans : ∀ a b c, le a b = true → le b c = true → le a c = true)
    (htot : ∀ a b, le a b = true ∨ le b a = true)
    {x : α} {l : List α} (h : l.Pairwise fun a b => le a b = true) :
    (insertLe le x l).Pairwise fun a b => le a b = true := by
  induction l with
  | nil => simp [insertLe]
  | cons y ys ih =>
    obtain ⟨hy, hys⟩ := List.pairwise_cons.mp h
    simp only [insertLe]
    split
    next hle =>
      apply List.pairwise_cons.mpr
      refine ⟨?_, h⟩
      intro z hz
      rcases List.mem_cons.mp hz with hz | hz
      · subst hz; exact hle
      · exact htrans x y z hle (hy z hz)
    next hle =>
      apply List.pairwise_cons.mpr
      constructor
      · intro z hz
        rcases List.mem_cons.mp ((insertLe_perm le x ys).mem_iff.mp hz) with hz2 | hz2
        · rw [hz2]
          rcases htot x y with h2 | h2
          · exact absurd h2 hle
          · exact h2
        · exact hy z hz2
      · exact ih hys

/-- `sortLe` sorts: its output is pairwise `le`, given transitivity and
totality. -/
lemma sortLe_pairwise {α : Type} (le : α → α → Bool)
    (htrans : ∀ a b c, le a b = true → le b c = true → le a c = true)
    (htot : ∀ a b, le a b = true ∨ le b a = true)
    (l : List α) : (sortLe le l).Pairwise fun a b => le a b = true := by
  induction l with
  | nil => simp [sortLe]
  | cons a as ih => exact pairwise_insertLe htrans htot ih

/-- Summing `count / S * 100` over a list factors through the sum of the
counts. -/
lemma sum_map_div_mul {α : Type} (l : List α) (f : α → Nat) (S : ℚ) :
    (l.map fun a => (f a : ℚ) / S * 100).sum
      = ((l.map fun a => (f a : ℚ)).sum) / S * 100 := by
  induction l with
  | nil => simp
  | cons a as ih => simp [ih, add_div, add_mul]

/-- Projecting the keys out of a threshold filter over tagged counts. -/
lemma map_fst_filter_count {κ : Type} (srcs : List κ) (g : κ → Nat) (T : Nat) :
    (((srcs.map fun s => (s, g s)).filter fun su => T ≤ su.2).map fun su => su.1)
      = srcs.filter fun s => T ≤ g s := by
  induction srcs with
  | nil => rfl
  | cons s ss ih =>
    simp only [List.map_cons]
    by_cases h : T ≤ g s
    · rw [List.filter_cons_of_pos (by simpa using h),
        List.filter_cons_of_pos (by simpa using h)]
      simp only [List.map_cons, ih]
    · rw [List.filter_cons_of_neg (by simpa using h),
        List.filter_cons_of_neg (by simpa using h)]
      exact ih

/-- Counting by an extracted key equals counting the key list. -/
lemma countP_key_eq {α κ : Type} [DecidableEq κ] (key : α → κ) (df : List α)
    (k : κ) :
    (df.countP fun x => key x = k) = (df.map key).countP fun y => y = k := by
  rw [List.countP_map]; rfl

/-- The group sizes of a grouping sum to the length of the list. -/
lemma sum_counts_groupCounts {α κ : Type} [DecidableEq κ] (key : α → κ)
    (df : List α) :
    ((groupCounts key df).map (·.2)).sum = df.length := by
  unfold groupCounts
  rw [List.map_map]
  have hmc : ((uniqueKeys (df.map key)).map
        ((·.2) ∘ fun k => (k, df.countP fun x => key x = k)))
      = (uniqueKeys (df.map key)).map
        fun k => (df.map key).countP fun y => y = k := by
    apply List.map_congr_left
    intro k _
    exact countP_key_eq key df k
  rw [hmc]
  have h2 := sum_countP_uniqueKeys_filter (df.map key) fun _ => true
  simpa using h2



/-- `analyze_packet_data` succeeds exactly on non-empty dataframes, and
then returns `analyzeBody`. -/
lemma analyze_packet_data_eq_ok {df : List Row} {r : AnalyzeResult} :
    analyze_packet_data df = Except.ok r ↔ df ≠ [] ∧ r = analyzeBody df := by
  unfold analyze_packet_data
  split
  next h => simp [h]
  next h => simp [h, eq_comm]

/-- `analyze_packet_data` on a non-empty dataframe. -/
lemma analyze_packet_data_ok {df : List Row} (h : df ≠ []) :
    analyze_packet_data df = Except.ok (analyzeBody df) := by
  simp [analyze_packet_data, h]

/-- `detect_port_scanning` succeeds exactly on non-empty dataframes, and
then returns `detectBody`. -/
lemma detect_port_scanning_eq_ok {df : List SecRow} {T : Nat}
    {l : List String} :
    detect_port_scanning df T = Except.ok l ↔ df ≠ [] ∧ l = detectBody df T := by
  unfold detect_port_scanning
  split
  next h => simp [h]
  next h => simp [h, eq_comm]

/-- `detect_port_scanning` on a non-empty dataframe. -/
lemma detect_port_scanning_ok {df : List SecRow} {T : Nat} (h : df ≠ []) :
    detect_port_scanning df T = Except.ok (detectBody df T) := by
  simp [detect_port_scanning, h]

/-- The number of (src_ip, dst_port) groups whose source is `s` is the
number of distinct ports recorded for `s`. -/
lemma countP_srcKey (df : List SecRow) (s : String) :
    ((groupCounts (fun r => (r.src_ip, r.dst_port)) df).countP
        fun q => q.1.1 = s)
      = uniquePortCount s df := by
  unfold groupCounts
  rw [List.countP_map]
  show ((uniqueKeys (df.map fun r => (r.src_ip, r.dst_port))).countP
      fun k => k.1 = s) = _
  rw [List.countP_eq_length_filter, ← uniqueKeys_filter]
  show (uniqueKeys ((df.map fun r => (r.src_ip, r.dst_port)).filter
      fun k => k.1 = s)).length = _
  rw [List.filter_map]
  show (uniqueKeys ((df.filter fun r => r.src_ip = s).map
      fun r => (r.src_ip, r.dst_port))).length = _
  have hmc : (df.filter fun r => r.src_ip = s).map
        (fun r => (r.src_ip, r.dst_port))
      = ((df.filter fun r => r.src_ip = s).map (·.dst_port)).map
        fun p => (s, p) := by
    rw [List.map_map]
    apply List.map_congr_left
    intro r hr
    have hs : r.src_ip = s := by
      simpa using (List.mem_filter.mp hr).2
    simp [Function.comp, hs]
  rw [hmc, uniqueKeys_map_inj (fun p => (s, p))
    (fun x y h => by simpa using h), List.length_map]
  rfl

/-- Characterization of the flagged list: a source is flagged exactly when
its distinct recorded-port count reaches the (positive) threshold. -/
lemma mem_detectBody {df : List SecRow} {T : Nat} (hT : 1 ≤ T) {s : String} :
    s ∈ detectBody df T ↔ T ≤ uniquePortCount s df := by
  unfold detectBody
  rw [map_fst_filter_count]
  have hcnt : ∀ s' : String,
      ((sortLe (fun a b => spLe a.1 b.1)
          (groupCounts (fun r => (r.src_ip, r.dst_port)) df)).countP
        fun q => q.1.1 = s')
      = uniquePortCount s' df := by
    intro s'
    rw [(sortLe_perm _ _).countP_eq, countP_srcKey]
  constructor
  · intro hmem
    have h2 := List.mem_filter.mp hmem
    have h3 := h2.2
    rw [hcnt s] at h3
    simpa using h3
  · intro hle
    apply List.mem_filter.mpr
    refine ⟨?_, by simpa [hcnt s] using hle⟩
    have hpos : 0 < ((sortLe (fun a b => spLe a.1 b.1)
        (groupCounts (fun r => (r.src_ip, r.dst_port)) df)).countP
          fun q => q.1.1 = s) := by
      rw [hcnt s]; omega
    obtain ⟨q, hq, hq2⟩ := List.countP_pos_iff.mp hpos
    exact mem_uniqueKeys.mpr (List.mem_map.mpr ⟨q, hq, by simpa using hq2⟩)



/-- Demo capture for the aggregator: one TCP packet with an IP layer and
one packet without an IP layer. -/
def demoPkts : List Packet :=
  [⟨true, "a", "b", 6, 10, true, 80⟩, ⟨false, "c", "d", 6, 5, false, 0⟩]

/-- Demo capture for the port-scan heuristic: one source contacting two
distinct TCP ports. -/
def demoSecPkts : List Packet :=
  [⟨true, "X", "Y", 6, 10, true, 80⟩, ⟨true, "X", "Y", 6, 10, true, 443⟩]

/-- C2: on zero input records both the aggregator and the heuristic raise a
`KeyError` (the empty dataframe has no columns), instead of returning
`totalBandwidthBytes = 0`, empty tables and no flagged sources as the spec
requires. -/
theorem c2_empty_input_raises :
    analyze_packet_data (extract_packet_data []) = Except.error "KeyError: size" ∧
      detect_port_scanning (extract_packet_data_security []) 100
        = Except.error "KeyError: src_ip" :=
  ⟨rfl, rfl⟩

/-- C1 counterexample: one UDP packet from source A. The heuristic records
the sentinel port 0 for it and, at threshold 1, flags A, although A has
zero distinct non-sentinel destination ports, so the claim's
characterization (count excludes the sentinel) fails. -/
theorem c1_sentinel_counted :
    detect_port_scanning (extract_packet_data_security
        [⟨true, "A", "B", 17, 100, false, 0⟩]) 1 = Except.ok ["A"] ∧
      uniqueNonSentinelPortCount "A" (extract_packet_data_security
        [⟨true, "A", "B", 17, 100, false, 0⟩]) = 0 :=
  ⟨rfl, rfl⟩

/-- C1 (amended): whenever the heuristic returns (non-empty record set) and
the threshold is positive, it flags exactly the sources whose number of
distinct recorded `dst_port` values — the sentinel 0 included — reaches the
threshold. -/
theorem c1_flagged_iff (packets : List Packet) (T : Nat) (hT : 1 ≤ T)
    (l : List String)
    (hok : detect_port_scanning (extract_packet_data_security packets) T
      = Except.ok l) (s : String) :
    s ∈ l ↔ T ≤ uniquePortCount s (extract_packet_data_security packets) := by
  obtain ⟨hne, hl⟩ := detect_port_scanning_eq_ok.mp hok
  subst hl
  exact mem_detectBody hT

/-- Witness for `c1_flagged_iff` at a concrete capture and threshold. -/
theorem c1_flagged_iff_witness :
    ("X" ∈ ["X"] ↔
      2 ≤ uniquePortCount "X" (extract_packet_data_security demoSecPkts)) :=
  c1_flagged_iff demoSecPkts 2 (by decide) ["X"] (by rfl) "X"

/-- C7 counterexample: source A contacts TCP port 80 and also sends a UDP
packet (sentinel port 0). At threshold 2 its non-sentinel distinct-port
count is 1 = 2 - 1, yet A is flagged, refuting the claim that a source
with threshold-minus-one distinct destination ports is never flagged. -/
theorem c7_sentinel_boundary :
    detect_port_scanning (extract_packet_data_security
        [⟨true, "A", "B", 6, 100, true, 80⟩,
          ⟨true, "A", "B", 17, 100, false, 0⟩]) 2 = Except.ok ["A"] ∧
      uniqueNonSentinelPortCount "A" (extract_packet_data_security
        [⟨true, "A", "B", 6, 100, true, 80⟩,
          ⟨true, "A", "B", 17, 100, false, 0⟩]) = 2 - 1 :=
  ⟨rfl, rfl⟩

/-- C7 (amended): with the count taken as the heuristic computes it (number
of distinct recorded `dst_port` values, sentinel included), the threshold is
inclusive: a source with exactly T such values is flagged, and whenever the
heuristic returns, a source with exactly T - 1 is not flagged. -/
theorem c7_threshold_boundary (packets : List Packet) (T : Nat) (hT : 1 ≤ T)
    (s : String) :
    (uniquePortCount s (extract_packet_data_security packets) = T →
        ∃ l, detect_port_scanning (extract_packet_data_security packets) T
            = Except.ok l ∧ s ∈ l) ∧
      ∀ l, detect_port_scanning (extract_packet_data_security packets) T
          = Except.ok l →
        uniquePortCount s (extract_packet_data_security packets) = T - 1 →
        s ∉ l := by
  constructor
  · intro hcount
    have hne : extract_packet_data_security packets ≠ [] := by
      intro hnil
      rw [hnil] at hcount
      have h0 : uniquePortCount s ([] : List SecRow) = 0 := rfl
      omega
    exact ⟨detectBody (extract_packet_data_security packets) T,
      detect_port_scanning_ok hne, (mem_detectBody hT).mpr (by omega)⟩
  · intro l hok hcount hmem
    obtain ⟨hne, hl⟩ := detect_port_scanning_eq_ok.mp hok
    subst hl
    have := (mem_detectBody hT).mp hmem
    omega

/-- Witness for `c7_threshold_boundary` at a concrete capture. -/
theorem c7_threshold_boundary_witness :
    (uniquePortCount "X" (extract_packet_data_security demoSecPkts) = 2 →
        ∃ l, detect_port_scanning (extract_packet_data_security demoSecPkts) 2
            = Except.ok l ∧ "X" ∈ l) ∧
      ∀ l, detect_port_scanning (extract_packet_data_security demoSecPkts) 2
          = Except.ok l →
        uniquePortCount "X" (extract_packet_data_security demoSecPkts) = 2 - 1 →
        "X" ∉ l :=
  c7_threshold_boundary demoSecPkts 2 (by decide) "X"

/-- C9 counterexample: a dataframe containing a row with negative
`frameSize` is processed without any error and the negative value is summed
into the total, instead of the fail-fast the claim requires. -/
theorem c9_negative_size_accepted :
    (analyze_packet_data [⟨"A", "B", 6, -100⟩]).toOption.map
      (·.total_bandwidth) = some (-100) :=
  rfl

/-- C9 (amended): the aggregator performs no input validation: on any
non-empty dataframe, including one with negative `frameSize` values, it
completes normally and sums every `size` — negative ones included — into
`total_bandwidth`. -/
theorem c9_no_validation (df : List Row) (h : df ≠ []) :
    analyze_packet_data df = Except.ok (analyzeBody df) ∧
      (analyzeBody df).total_bandwidth = (df.map (·.size)).sum :=
  ⟨analyze_packet_data_ok h, rfl⟩

/-- Witness for `c9_no_validation` at a dataframe with a negative size. -/
theorem c9_no_validation_witness :
    analyze_packet_data [⟨"A", "B", 6, -100⟩]
        = Except.ok (analyzeBody [⟨"A", "B", 6, -100⟩]) ∧
      (analyzeBody [⟨"A", "B", 6, -100⟩]).total_bandwidth
        = (([⟨"A", "B", 6, -100⟩] : List Row).map (·.size)).sum :=
  c9_no_validation [⟨"A", "B", 6, -100⟩] (by decide)

/-- C6 counterexample: on a capture with no IP-bearing records the
aggregator raises instead of reporting a zero total, so the equality of the
claim holds only when at least one IP record is present. -/
theorem c6_no_ip_raises :
    analyze_packet_data (extract_packet_data
      [⟨false, "C", "D", 6, 5, false, 0⟩]) = Except.error "KeyError: size" :=
  rfl

/-- C6 (amended): on any capture with at least one IP-bearing record the
aggregator returns, and its total bandwidth is the sum of the frame sizes
of exactly the IP-bearing records. -/
theorem c6_total_bandwidth (packets : List Packet)
    (h : extract_packet_data packets ≠ []) :
    ∃ r, analyze_packet_data (extract_packet_data packets) = Except.ok r ∧
      r.total_bandwidth = ((packets.filter (·.hasIP)).map (·.size)).sum := by
  refine ⟨analyzeBody (extract_packet_data packets),
    analyze_packet_data_ok h, ?_⟩
  simp only [analyzeBody, extract_packet_data, List.map_map]
  rfl

/-- Witness for `c6_total_bandwidth` at a concrete capture with a non-IP
record. -/
theorem c6_total_bandwidth_witness :
    ∃ r, analyze_packet_data (extract_packet_data demoPkts) = Except.ok r ∧
      r.total_bandwidth = ((demoPkts.filter (·.hasIP)).map (·.size)).sum :=
  c6_total_bandwidth demoPkts (by decide)



/-- Demo dataframe with a single TCP row. -/
def demoDf : List Row := [⟨"a", "b", 6, 10⟩]

/-- `sort_values_desc` permutes its input. -/
lemma sort_values_desc_perm {κ : Type} (l : List (κ × Nat)) :
    (sort_values_desc l).Perm l :=
  (List.reverse_perm _).trans (sortLe_perm _ _)

/-- The protocol distribution series is a permutation of the raw protocol
grouping. -/
lemma protoCountsOf_perm (df : List Row) :
    (protoCountsOf df).Perm (groupCounts (fun r => r.protocol) df) :=
  sort_values_desc_perm _

/-- The pair series is a permutation of the raw pair grouping. -/
lemma ip_communication_perm (df : List Row) :
    (ip_communication df).Perm
      (groupCounts (fun r => (r.src_ip, r.dst_ip)) df) :=
  (sort_values_desc_perm _).trans (sortLe_perm _ _)

/-- The triple series is a permutation of the raw triple grouping. -/
lemma tripleCountsOf_perm (df : List Row) :
    (tripleCountsOf df).Perm
      (groupCounts (fun r => (r.src_ip, r.dst_ip, r.protocol)) df) :=
  sortLe_perm _ _

/-- Casting a sum of counts into `ℚ` elementwise. -/
lemma cast_sum_counts {κ : Type} (l : List (κ × Nat)) :
    (l.map fun kc => ((kc.2 : Nat) : ℚ)).sum
      = Nat.cast ((l.map fun kc => kc.2).sum) := by
  rw [Nat.cast_list_sum, List.map_map]
  rfl

/-- C3: for every non-empty dataframe the aggregator returns, and the
`percentage` column of the protocol distribution sums to exactly 100 (in
the exact rational arithmetic idealizing the script's floats). -/
theorem c3_protocol_percentage_sum (df : List Row) (h : df ≠ []) :
    ∃ r, analyze_packet_data df = Except.ok r ∧
      (r.protocol_counts_df.map (·.percentage)).sum = 100 := by
  refine ⟨analyzeBody df, analyze_packet_data_ok h, ?_⟩
  have hlen : (df.length : ℚ) ≠ 0 :=
    Nat.cast_ne_zero.mpr fun hl => h (List.length_eq_zero.mp hl)
  simp only [analyzeBody, List.map_map]
  show ((protoCountsOf df).map fun pc =>
    (pc.2 : ℚ) / (df.length : ℚ) * 100).sum = 100
  rw [List.Perm.sum_eq ((protoCountsOf_perm df).map fun pc =>
    (pc.2 : ℚ) / (df.length : ℚ) * 100)]
  rw [sum_map_div_mul (groupCounts (fun r => r.protocol) df) (·.2)
    (df.length : ℚ)]
  rw [cast_sum_counts, sum_counts_groupCounts, div_self hlen, one_mul]

/-- Witness for `c3_protocol_percentage_sum` at a concrete dataframe. -/
theorem c3_protocol_percentage_sum_witness :
    ∃ r, analyze_packet_data demoDf = Except.ok r ∧
      (r.protocol_counts_df.map (·.percentage)).sum = 100 :=
  c3_protocol_percentage_sum demoDf (by decide)

/-- The denominator `ip_communication.sum()` equals the number of rows. -/
lemma ipTotal_eq_length (df : List Row) : ipTotal df = df.length := by
  unfold ipTotal
  rw [List.Perm.sum_eq ((ip_communication_perm df).map (·.2)),
    sum_counts_groupCounts]

/-- C4: for every non-empty dataframe the aggregator returns, and the
`percentage` column of the IP-pair communication table sums to exactly
100. -/
theorem c4_ip_pair_percentage_sum (df : List Row) (h : df ≠ []) :
    ∃ r, analyze_packet_data df = Except.ok r ∧
      (r.ip_communication_table.map (·.percentage)).sum = 100 := by
  refine ⟨analyzeBody df, analyze_packet_data_ok h, ?_⟩
  have hlen : (ipTotal df : ℚ) ≠ 0 := by
    rw [ipTotal_eq_length]
    exact Nat.cast_ne_zero.mpr fun hl => h (List.length_eq_zero.mp hl)
  simp only [analyzeBody, List.map_map]
  show ((ip_communication df).map fun kc =>
    (kc.2 : ℚ) / (ipTotal df : ℚ) * 100).sum = 100
  rw [List.Perm.sum_eq ((ip_communication_perm df).map fun kc =>
    (kc.2 : ℚ) / (ipTotal df : ℚ) * 100)]
  rw [sum_map_div_mul (groupCounts (fun r => (r.src_ip, r.dst_ip)) df) (·.2)
    (ipTotal df : ℚ)]
  rw [cast_sum_counts, sum_counts_groupCounts, ← ipTotal_eq_length,
    div_self hlen, one_mul]

/-- Witness for `c4_ip_pair_percentage_sum` at a concrete dataframe. -/
theorem c4_ip_pair_percentage_sum_witness :
    ∃ r, analyze_packet_data demoDf = Except.ok r ∧
      (r.ip_communication_table.map (·.percentage)).sum = 100 :=
  c4_ip_pair_percentage_sum demoDf (by decide)



/-- For each (src_ip, dst_ip) pair, the per-protocol group sizes sum to the
number of rows of that pair. -/
lemma sum_triple_counts_filter (df : List Row) (s d : String) :
    (((tripleCountsOf df).filter fun tc => tc.1.1 = s ∧ tc.1.2.1 = d).map
      (·.2)).sum = df.countP fun r => r.src_ip = s ∧ r.dst_ip = d := by
  unfold tripleCountsOf
  have hperm := List.Perm.filter (fun tc => decide (tc.1.1 = s ∧ tc.1.2.1 = d))
    (sortLe_perm (fun a b => tripleLe a.1 b.1)
      (groupCounts (fun r => (r.src_ip, r.dst_ip, r.protocol)) df))
  rw [List.Perm.sum_eq (hperm.map (·.2))]
  unfold groupCounts
  rw [List.filter_map, List.map_map]
  show (((uniqueKeys (df.map fun r => (r.src_ip, r.dst_ip, r.protocol))).filter
      fun t => t.1 = s ∧ t.2.1 = d).map
      fun t => df.countP fun x => (x.src_ip, x.dst_ip, x.protocol) = t).sum = _
  rw [List.map_congr_left fun t _ =>
    countP_key_eq (fun r : Row => (r.src_ip, r.dst_ip, r.protocol)) df t]
  rw [sum_countP_uniqueKeys_filter]
  rw [List.countP_map]
  rfl

/-- C5: for every dataframe and every (src, dst) pair appearing in it, the
aggregator returns and the `percentage` column of the per-pair protocol
breakdown, restricted to that pair, sums to exactly 100. -/
theorem c5_pair_protocol_percentage_sum (df : List Row) (s d : String)
    (h : ∃ row ∈ df, row.src_ip = s ∧ row.dst_ip = d) :
    ∃ r, analyze_packet_data df = Except.ok r ∧
      ((r.ip_communication_protocols.filter fun t =>
          t.src_ip = s ∧ t.dst_ip = d).map (·.percentage)).sum = 100 := by
  obtain ⟨row, hrow, hs, hd⟩ := h
  have hne : df ≠ [] := by
    intro hnil
    rw [hnil] at hrow
    exact (List.not_mem_nil row) hrow
  refine ⟨analyzeBody df, analyze_packet_data_ok hne, ?_⟩
  have hS : df.countP (fun r => r.src_ip = s ∧ r.dst_ip = d) ≠ 0 := by
    have hpred : decide (row.src_ip = s ∧ row.dst_ip = d) = true :=
      decide_eq_true (And.intro hs hd)
    have hpos : 0 < df.countP fun r => r.src_ip = s ∧ r.dst_ip = d :=
      List.countP_pos_iff.mpr ⟨row, hrow, hpred⟩
    omega
  have hSpgt : pairGroupTotal df s d
      = df.countP fun r => r.src_ip = s ∧ r.dst_ip = d :=
    sum_triple_counts_filter df s d
  have hQ : (pairGroupTotal df s d : ℚ) ≠ 0 :=
    Nat.cast_ne_zero.mpr (by rw [hSpgt]; exact hS)
  simp only [analyzeBody]
  rw [List.filter_map, List.map_map]
  show (((tripleCountsOf df).filter fun tc => tc.1.1 = s ∧ tc.1.2.1 = d).map
      fun tc => (tc.2 : ℚ) / (pairGroupTotal df tc.1.1 tc.1.2.1 : ℚ) * 100).sum
      = 100
  have hmc : (((tripleCountsOf df).filter fun tc =>
        tc.1.1 = s ∧ tc.1.2.1 = d).map
        fun tc => (tc.2 : ℚ) / (pairGroupTotal df tc.1.1 tc.1.2.1 : ℚ) * 100)
      = (((tripleCountsOf df).filter fun tc =>
        tc.1.1 = s ∧ tc.1.2.1 = d).map
        fun tc => (tc.2 : ℚ) / (pairGroupTotal df s d : ℚ) * 100) := by
    apply List.map_congr_left
    intro tc htc
    have h2 : tc.1.1 = s ∧ tc.1.2.1 = d := by
      simpa using (List.mem_filter.mp htc).2
    rw [h2.1, h2.2]
  rw [hmc]
  rw [sum_map_div_mul ((tripleCountsOf df).filter fun tc =>
    tc.1.1 = s ∧ tc.1.2.1 = d) (·.2) (pairGroupTotal df s d : ℚ)]
  rw [cast_sum_counts]
  have hfin : ((((tripleCountsOf df).filter fun tc =>
      tc.1.1 = s ∧ tc.1.2.1 = d).map fun kc => kc.2).sum)
      = pairGroupTotal df s d := rfl
  rw [hfin, div_self hQ, one_mul]

/-- Witness for `c5_pair_protocol_percentage_sum` at a concrete dataframe
and pair. -/
theorem c5_pair_protocol_percentage_sum_witness :
    ∃ r, analyze_packet_data demoDf = Except.ok r ∧
      ((r.ip_communication_protocols.filter fun t =>
          t.src_ip = "a" ∧ t.dst_ip = "b").map (·.percentage)).sum = 100 :=
  c5_pair_protocol_percentage_sum demoDf "a" "b" (by decide)

/-- C10: for every non-empty dataframe the aggregator returns, and for each
entry of the pair table, the counts of the per-pair protocol entries for
that pair sum to the pair's count. -/
theorem c10_count_consistency (df : List Row) (h : df ≠ []) :
    ∃ r, analyze_packet_data df = Except.ok r ∧
      ∀ e ∈ r.ip_communication_table,
        ((r.ip_communication_protocols.filter fun t =>
            t.src_ip = e.src_ip ∧ t.dst_ip = e.dst_ip).map (·.count)).sum
          = e.count := by
  refine ⟨analyzeBody df, analyze_packet_data_ok h, ?_⟩
  intro e he
  simp only [analyzeBody] at he
  obtain ⟨kc, hkc, hke⟩ := List.mem_map.mp he
  have hkc2 : kc ∈ groupCounts (fun r => (r.src_ip, r.dst_ip)) df :=
    (ip_communication_perm df).mem_iff.mp hkc
  obtain ⟨k, _, hkk⟩ := List.mem_map.mp hkc2
  subst hke
  subst hkk
  simp only [analyzeBody]
  rw [List.filter_map, List.map_map]
  show (((tripleCountsOf df).filter fun tc =>
      tc.1.1 = k.1 ∧ tc.1.2.1 = k.2).map (·.2)).sum
      = df.countP fun r => (r.src_ip, r.dst_ip) = k
  rw [sum_triple_counts_filter df k.1 k.2]
  apply List.countP_congr
  intro x _
  simp [Prod.ext_iff]

/-- Witness for `c10_count_consistency` at a concrete dataframe. -/
theorem c10_count_consistency_witness :
    ∃ r, analyze_packet_data demoDf = Except.ok r ∧
      ∀ e ∈ r.ip_communication_table,
        ((r.ip_communication_protocols.filter fun t =>
            t.src_ip = e.src_ip ∧ t.dst_ip = e.dst_ip).map (·.count)).sum
          = e.count :=
  c10_count_consistency demoDf (by decide)

/-- C8 counterexample: two pairs tie at count 1; the first-observed order is
("a","a") then ("b","b"), but the emitted table lists ("b","b") first: the
key-sorted grouping plus the reversal of the ascending argsort puts ties in
reverse key order, not first-observed order. -/
theorem c8_tie_not_first_observed :
    (analyze_packet_data [⟨"a", "a", 6, 1⟩, ⟨"b", "b", 6, 1⟩]).toOption.map
      (fun r => r.ip_communication_table.map fun e =>
        (e.src_ip, e.dst_ip, e.count))
      = some [("b", "b", 1), ("a", "a", 1)] := by
  decide

/-- C8 (amended): for every non-empty dataframe the aggregator returns, and
the pair table is sorted by count descending; the tie order is not the
first-observed order of the pairs. -/
theorem c8_sorted_desc (df : List Row) (h : df ≠ []) :
    ∃ r, analyze_packet_data df = Except.ok r ∧
      r.ip_communication_table.Pairwise fun a b => b.count ≤ a.count := by
  refine ⟨analyzeBody df, analyze_packet_data_ok h, ?_⟩
  have hpw : (ip_communication df).Pairwise fun x y => y.2 ≤ x.2 := by
    unfold ip_communication sort_values_desc
    apply List.pairwise_reverse.mpr
    have hsorted := sortLe_pairwise countLe
      (fun a b c hab hbc => by
        simp only [countLe, decide_eq_true_eq] at hab hbc ⊢
        omega)
      (fun a b => by
        simp only [countLe, decide_eq_true_eq]
        exact Nat.le_total a.2 b.2)
      (pairCountsOf df)
    exact hsorted.imp fun {a b} hab => by simpa [countLe] using hab
  simp only [analyzeBody]
  exact List.Pairwise.map _ (fun a b hab => hab) hpw

/-- Witness for `c8_sorted_desc` at a concrete dataframe. -/
theorem c8_sorted_desc_witness :
    ∃ r, analyze_packet_data demoDf = Except.ok r ∧
      r.ip_communication_table.Pairwise fun a b => b.count ≤ a.count :=
  c8_sorted_desc demoDf (by decide)


end NetTraffic
